import Mathlib

/-!
Verification development for the guarded-routes library.

The embedding models the three source files of the repository:
the route-pattern matcher `searchMapForRoute`, the guarded-routes
generator `generateGuardedRoutes` (memoized fragment merge, the
composed decision function `isPathAllowed`, and the boundary adapter
`guardMiddleware`), and the example predicate checks from the usage
documentation (`checkRouteForRole`, `checkRouteForFeatureFlag`,
`checkRouteForSpecialChecks`, and the composed
`isPathAllowedWithGetApplicationGuardedRoutes`).

Modelling conventions:
- Asynchronous functions that may throw or reject are modelled in the
  monad `GM sigma` of state-passing computations over an abstract state
  `sigma` that either return a value or an error payload (a `String`).
  The state component makes side effects of supplied callbacks
  observable, which is what lets us express that a callback is never
  invoked.
- Plain JavaScript objects used as string-keyed tables are modelled as
  association lists (`List (String times T)`), with `jsGet` for property
  reads and `jsSet` for property writes (replace in place, append when
  fresh), matching object key semantics.
- JavaScript truthiness tests on table values are modelled by an
  explicit predicate argument `truthy : T -> Bool`; for the tables the
  library is used with (arrays, records and functions as values) every
  value is truthy, so those sites instantiate `truthy` with the constant
  true function.
-/

/-- The evaluation monad: explicit state passing plus JavaScript
exceptions, carried as `String` payloads. `GM sigma alpha` is a
computation which, given a state, either succeeds with a value or
throws, in both cases yielding a successor state. -/
abbrev GM (σ α : Type) : Type := σ → Except String α × σ

def GM.pure {σ α : Type} (a : α) : GM σ α := fun s => (Except.ok a, s)

def GM.bind {σ α β : Type} (x : GM σ α) (f : α → GM σ β) : GM σ β := fun s =>
  match x s with
  | (Except.ok a, s') => f a s'
  | (Except.error e, s') => (Except.error e, s')

def GM.throw {σ α : Type} (e : String) : GM σ α := fun s => (Except.error e, s)

/-- JavaScript try/catch: run `x`; on a thrown error hand it to `h`. -/
def GM.tryCatch {σ α : Type} (x : GM σ α) (h : String → GM σ α) : GM σ α := fun s =>
  match x s with
  | (Except.error e, s') => h e s'
  | ok => ok

/-- Property read on a plain object: `m[k]`, `none` when the key is absent. -/
def jsGet {β : Type} (m : List (String × β)) (k : String) : Option β :=
  match m with
  | [] => none
  | (k', v) :: rest => if k' = k then some v else jsGet rest k

/-- Property write on a plain object: `m[k] = v`. An existing key keeps
its position and gets the new value; a fresh key is appended. -/
def jsSet {β : Type} (m : List (String × β)) (k : String) (v : β) : List (String × β) :=
  match m with
  | [] => [(k, v)]
  | (k', v') :: rest => if k' = k then (k, v) :: rest else (k', v') :: jsSet rest k v

/-- JavaScript `s.split('/')` (split on every slash, keeping empty pieces). -/
def splitSlashAux (cs : List Char) (cur : List Char) : List String :=
  match cs with
  | [] => [String.mk cur.reverse]
  | c :: rest =>
    if c = '/' then String.mk cur.reverse :: splitSlashAux rest []
    else splitSlashAux rest (c :: cur)

def splitSlash (s : String) : List String := splitSlashAux s.toList []

/-- JavaScript `parts.join('/')`. -/
def joinSlash : List String → String
  | [] => ""
  | [x] => x
  | x :: xs => x ++ "/" ++ joinSlash xs

/-- `pathParts.slice(0, i).join('/')`: the prefix made of the first `i`
path segments. -/
def takeJoin (parts : List String) (i : Nat) : String := joinSlash (parts.take i)

/-- The wildcard probe of the matcher loop at index `i`: does
`routes[parts.slice(0, i).join('/') + "/*"]` hold a truthy value? -/
def wildcardHit {T : Type} (truthy : T → Bool) (routes : List (String × T))
    (parts : List String) (i : Nat) : Bool :=
  match jsGet routes (takeJoin parts i ++ "/*") with
  | some v => truthy v
  | none => false

/-- The `for (let i = pathParts.length; i > 0; i--)` loop of
`searchMapForRoute`: test wildcard keys for decreasing segment counts and
return the first truthy hit. -/
def searchLoop {T : Type} (truthy : T → Bool) (routes : List (String × T))
    (parts : List String) : Nat → Option T
  | 0 => none
  | i + 1 =>
    match jsGet routes (takeJoin parts (i + 1) ++ "/*") with
    | some v => if truthy v then some v else searchLoop truthy routes parts i
    | none => searchLoop truthy routes parts i

/-- `searchMapForRoute` from `src/index.ts`: exact lookup first (guarded
by a truthiness test, as in the source), then the longest-prefix wildcard
scan. -/
def searchMapForRoute {T : Type} (truthy : T → Bool) (pathname : String)
    (routes : List (String × T)) : Option T :=
  match jsGet routes pathname with
  | some v =>
    if truthy v then some v
    else searchLoop truthy routes (splitSlash pathname) (splitSlash pathname).length
  | none => searchLoop truthy routes (splitSlash pathname) (splitSlash pathname).length


/-- A category value of a guard-configuration object: either an array
(sequence-typed category) or a plain object mapping route patterns to
category data of type `α` (mapping-typed category). -/
inductive CatVal (α : Type) : Type where
  | arr : List α → CatVal α
  | obj : List (String × α) → CatVal α
deriving DecidableEq

/-- A guard-configuration object as the untyped merge in
`generateGuardedRoutes` sees it: a record of category keys. -/
abbrev Config (α : Type) : Type := List (String × CatVal α)

/-- Pairs `("0", y0), ("1", y1), ...`: the own enumerable properties an
array contributes when spread into an object literal. -/
def indexedPairs {α : Type} (ys : List α) : List (String × α) :=
  (ys.enum).map (fun p => (toString p.1, p.2))

/-- JavaScript object spread `{...m1, ...m2}`: keys of `m1` in order with
values overridden by `m2` where present, then the keys of `m2` not in
`m1`, in order. -/
def objSpread {α : Type} (m1 m2 : List (String × α)) : List (String × α) :=
  m1.map (fun kv => match jsGet m2 kv.1 with | some v => (kv.1, v) | none => kv)
    ++ m2.filter (fun kv => (jsGet m1 kv.1).isNone)

/-- One key of the merge step in `getApplicationGuardedRoutes`:
`if (Array.isArray(acc[key])) acc[key] = [...acc[key], ...curr[key]]
 else if (curr[key]) acc[key] = {...acc[key], ...curr[key]}`.
`none` models the thrown TypeError when spreading a non-iterable object
into an array literal. Fragment values are arrays or objects, hence
always truthy, so the `else if` guard always passes when reached. -/
def mergeVal {α : Type} (a : Option (CatVal α)) (c : CatVal α) : Option (CatVal α) :=
  match a, c with
  | some (CatVal.arr xs), CatVal.arr ys => some (CatVal.arr (xs ++ ys))
  | some (CatVal.arr _), CatVal.obj _ => none
  | some (CatVal.obj m1), CatVal.arr ys => some (CatVal.obj (objSpread m1 (indexedPairs ys)))
  | some (CatVal.obj m1), CatVal.obj m2 => some (CatVal.obj (objSpread m1 m2))
  | none, CatVal.arr ys => some (CatVal.obj (objSpread [] (indexedPairs ys)))
  | none, CatVal.obj m2 => some (CatVal.obj (objSpread [] m2))

/-- The body of the reducer in `getApplicationGuardedRoutes`:
`for (const key in curr)` over the accumulator, assigning the merged
value per key. `none` models a thrown TypeError. -/
def mergeFragment {α : Type} (acc : Config α) : Config α → Option (Config α)
  | [] => some acc
  | (k, c) :: rest =>
    match mergeVal (jsGet acc k) c with
    | some v => mergeFragment (jsSet acc k v) rest
    | none => none

/-- `applicationGuardedRoutes.reduce(..., initValue)`: fold the fragments
in declaration order, starting from the initial value. -/
def mergeAll {α : Type} (acc : Config α) : List (Config α) → Option (Config α)
  | [] => some acc
  | f :: fs =>
    match mergeFragment acc f with
    | some acc' => mergeAll acc' fs
    | none => none

/-- The closure state of `generateGuardedRoutes`: the current value of
the `initValue` object, the fragment list, and the
`mergedApplicationGuardedRoutes` memo cell (`none` = still undefined). -/
structure GuardGen (α : Type) : Type where
  initValue : Config α
  applicationGuardedRoutes : List (Config α)
  mergedApplicationGuardedRoutes : Option (Config α)
deriving DecidableEq

/-- The memoized accessor `getApplicationGuardedRoutes` as a state
transition. On a hit the memo cell is returned unchanged (the merged
object is a record, hence truthy). On a miss the reduce runs; since the
reduce mutates its accumulator, and the accumulator is the `initValue`
object itself, the post-state records the merged value in `initValue` as
well as in the memo cell. `none` models the reduce throwing (the partial
mutation of `initValue` in that case is not tracked; no claim concerns
the post-throw state). -/
def getApplicationGuardedRoutes {α : Type} (s : GuardGen α) :
    Option (Config α × GuardGen α) :=
  match s.mergedApplicationGuardedRoutes with
  | some v => some (v, s)
  | none =>
    match mergeAll s.initValue s.applicationGuardedRoutes with
    | some r => some (r, ⟨r, s.applicationGuardedRoutes, some r⟩)
    | none => none

/-- The typed guard configuration from the usage documentation
(`GuardedRoutes` in `types.ts`): flag routes and role routes are
required string-list tables; special checks (asynchronous nullary
predicates) and default redirects (asynchronous functions of pathname
and query parameters) are optional. -/
structure GuardedRoutes (σ : Type) : Type where
  featureFlaggedRoutes : List (String × List String)
  roleBasedRoutes : List (String × List String)
  specialChecksRoutes : Option (List (String × (Unit → GM σ Bool)))
  defaultRedirects : Option (List (String × (String → List (String × String) → GM σ String)))

/-- `checkRouteForRole` from the usage documentation: look the path up in
the role table; absence allows; a hit denies exactly when the role list
includes the string `admin`. Table values are arrays, hence truthy. -/
def checkRouteForRole {σ : Type} (getApp : Unit → GuardedRoutes σ) (pathname : String) :
    GM σ Bool :=
  match searchMapForRoute (fun _ => true) pathname (getApp ()).roleBasedRoutes with
  | none => GM.pure true
  | some roles => GM.pure (!(roles.contains "admin"))

/-- `checkRouteForFeatureFlag` from the usage documentation: look the
path up in the flag table; absence allows; a hit defers to the external
flag-resolution collaborator `getFlags`. -/
def checkRouteForFeatureFlag {σ : Type} (getFlags : List String → GM σ Bool)
    (getApp : Unit → GuardedRoutes σ) (pathname : String) : GM σ Bool :=
  match searchMapForRoute (fun _ => true) pathname (getApp ()).featureFlaggedRoutes with
  | none => GM.pure true
  | some flags => getFlags flags

/-- `checkRouteForSpecialChecks` from the usage documentation: look the
path up in the special-checks table; absence allows; a hit runs the
stored asynchronous predicate. When the optional category was never
populated, the non-null assertion in the source lets the matcher read a
property of `undefined`, a thrown TypeError. -/
def checkRouteForSpecialChecks {σ : Type} (getApp : Unit → GuardedRoutes σ)
    (pathname : String) : GM σ Bool :=
  match (getApp ()).specialChecksRoutes with
  | none => GM.throw "TypeError: cannot read properties of undefined"
  | some table =>
    match searchMapForRoute (fun _ => true) pathname table with
    | none => GM.pure true
    | some check => check ()

/-- `isPathAllowedWithGetApplicationGuardedRoutes` from the usage
documentation: the awaited conjunction
`role && featureFlag && specialChecks`, in that order, short-circuiting
on the first false. -/
def isPathAllowedWithGetApplicationGuardedRoutes {σ : Type}
    (getFlags : List String → GM σ Bool) (getApp : Unit → GuardedRoutes σ)
    (pathname : String) : GM σ Bool :=
  GM.bind (checkRouteForRole getApp pathname) (fun b1 =>
    if b1 then
      GM.bind (checkRouteForFeatureFlag getFlags getApp pathname) (fun b2 =>
        if b2 then checkRouteForSpecialChecks getApp pathname else GM.pure false)
    else GM.pure false)

/-- The navigation context of a request (`request.nextUrl`). -/
structure NextUrl : Type where
  pathname : String
  searchParams : List (String × String)
  host : String
  protocol : String

/-- The hosting framework request object, as far as the library reads it. -/
structure NextRequest : Type where
  nextUrl : NextUrl

/-- `isPathAllowed` as returned by `generateGuardedRoutes`: apply the
caller-supplied composed-decision factory to the configuration accessor
and the path. The accessor is abstracted as a function; the memoized
accessor itself is modelled by `getApplicationGuardedRoutes` above. -/
def isPathAllowed {TG σ : Type} (ipawg : (Unit → TG) → String → GM σ Bool)
    (getApp : Unit → TG) (path : String) : GM σ Bool :=
  ipawg getApp path

/-- `guardMiddleware` as returned by `generateGuardedRoutes`: inside a
try block, await the decision and return the supplied response when it
is true; on false fall out of the try block; on a thrown error log and
fall out likewise; in both latter cases return the result of the
caller-supplied rejection handler applied to the configuration accessor
and the navigation context. The early return is encoded by an `Option`:
`some` carries the pass-through response out of the try block. -/
def guardMiddleware {TG σ ρ : Type} (ipawg : (Unit → TG) → String → GM σ Bool)
    (middlewareReject : (Unit → TG) → NextUrl → GM σ ρ)
    (getApp : Unit → TG) (request : NextRequest) (response : ρ) : GM σ ρ :=
  GM.bind
    (GM.tryCatch
      (GM.bind (isPathAllowed ipawg getApp request.nextUrl.pathname)
        (fun allowed => GM.pure (if allowed then some response else none)))
      (fun _e => GM.pure none))
    (fun outcome =>
      match outcome with
      | some r => GM.pure r
      | none => middlewareReject getApp request.nextUrl)

theorem jsGet_jsSet_self {β : Type} (m : List (String × β)) (k : String) (v : β) :
    jsGet (jsSet m k v) k = some v := by
  induction m with
  | nil => simp [jsSet, jsGet]
  | cons kv rest ih =>
    obtain ⟨k', v'⟩ := kv
    by_cases h : k' = k
    · simp [jsSet, jsGet, h]
    · simp [jsSet, jsGet, h, ih]

theorem jsGet_jsSet_other {β : Type} (m : List (String × β)) (k k₂ : String) (v : β)
    (hne : k₂ ≠ k) : jsGet (jsSet m k v) k₂ = jsGet m k₂ := by
  induction m with
  | nil => simp [jsSet, jsGet, Ne.symm hne]
  | cons kv rest ih =>
    obtain ⟨k', v'⟩ := kv
    by_cases h : k' = k
    · subst h
      simp [jsSet, jsGet, Ne.symm hne]
    · simp only [jsSet, if_neg h, jsGet]
      by_cases h2 : k' = k₂ <;> simp [h2, ih]

theorem jsGet_none_of_not_mem {β : Type} (m : List (String × β)) (k : String)
    (h : k ∉ m.map Prod.fst) : jsGet m k = none := by
  induction m with
  | nil => rfl
  | cons kv rest ih =>
    obtain ⟨k', v'⟩ := kv
    simp only [List.map, List.mem_cons] at h
    push_neg at h
    simp only [jsGet, if_neg (Ne.symm h.1)]
    exact ih h.2

theorem jsGet_append {β : Type} (A B : List (String × β)) (k : String) :
    jsGet (A ++ B) k
      = match jsGet A k with
        | some v => some v
        | none => jsGet B k := by
  induction A with
  | nil => simp [jsGet]
  | cons kv rest ih =>
    obtain ⟨k', v'⟩ := kv
    by_cases h : k' = k <;> simp [jsGet, h, ih]

theorem jsGet_mapOverride {α : Type} (m1 m2 : List (String × α)) (k : String) :
    jsGet (m1.map (fun kv => match jsGet m2 kv.1 with | some v => (kv.1, v) | none => kv)) k
      = match jsGet m1 k with
        | none => none
        | some v =>
          match jsGet m2 k with
          | some w => some w
          | none => some v := by
  induction m1 with
  | nil => simp [jsGet]
  | cons kv rest ih =>
    obtain ⟨k', v'⟩ := kv
    by_cases h : k' = k
    · subst h
      cases h2 : jsGet m2 k' <;> simp [jsGet, h2]
    · cases h2 : jsGet m2 k' <;> simp [jsGet, h2, h, ih]

theorem jsGet_filterFresh {α : Type} (m1 m2 : List (String × α)) (k : String) :
    jsGet (m2.filter (fun kv => (jsGet m1 kv.1).isNone)) k
      = match jsGet m1 k with
        | some _ => none
        | none => jsGet m2 k := by
  induction m2 with
  | nil => cases jsGet m1 k <;> simp [jsGet]
  | cons kv rest ih =>
    obtain ⟨k', v'⟩ := kv
    by_cases h : k' = k
    · subst h
      cases h1 : jsGet m1 k' <;> simp [List.filter_cons, jsGet, h1, ih]
    · cases h1 : jsGet m1 k' <;> cases h1' : jsGet m1 k <;>
        simp_all [List.filter_cons, jsGet, h, ih]

theorem objSpread_get {α : Type} (m1 m2 : List (String × α)) (k : String) :
    jsGet (objSpread m1 m2) k
      = match jsGet m2 k with
        | some w => some w
        | none => jsGet m1 k := by
  unfold objSpread
  rw [jsGet_append, jsGet_mapOverride, jsGet_filterFresh]
  cases h1 : jsGet m1 k <;> cases h2 : jsGet m2 k <;> simp

theorem searchLoop_succ {T : Type} (truthy : T → Bool) (routes : List (String × T))
    (parts : List String) (i : Nat) :
    searchLoop truthy routes parts (i + 1)
      = if wildcardHit truthy routes parts (i + 1) then
          jsGet routes (takeJoin parts (i + 1) ++ "/*")
        else searchLoop truthy routes parts i := by
  cases h : jsGet routes (takeJoin parts (i + 1) ++ "/*") with
  | none => simp [searchLoop, wildcardHit, h]
  | some v => cases ht : truthy v <;> simp [searchLoop, wildcardHit, h, ht]

theorem searchLoop_none {T : Type} (truthy : T → Bool) (routes : List (String × T))
    (parts : List String) (n : Nat)
    (h : ∀ j, 1 ≤ j → j ≤ n → wildcardHit truthy routes parts j = false) :
    searchLoop truthy routes parts n = none := by
  induction n with
  | zero => rfl
  | succ n ih =>
    rw [searchLoop_succ, h (n + 1) (by omega) (by omega)]
    simp only [if_false, Bool.false_eq_true]
    exact ih (fun j h1 h2 => h j h1 (by omega))

theorem searchLoop_find {T : Type} (truthy : T → Bool) (routes : List (String × T))
    (parts : List String) (i₀ n : Nat)
    (h1 : 1 ≤ i₀) (h2 : i₀ ≤ n)
    (h3 : wildcardHit truthy routes parts i₀ = true)
    (h4 : ∀ j, i₀ < j → j ≤ n → wildcardHit truthy routes parts j = false) :
    searchLoop truthy routes parts n = jsGet routes (takeJoin parts i₀ ++ "/*") := by
  induction n with
  | zero => omega
  | succ n ih =>
    by_cases hi : i₀ = n + 1
    · subst hi
      rw [searchLoop_succ, h3, if_pos rfl]
    · rw [searchLoop_succ, h4 (n + 1) (by omega) (by omega)]
      simp only [if_false, Bool.false_eq_true]
      exact ih (by omega) (fun j hj1 hj2 => h4 j hj1 (by omega))

theorem mergeFragment_get {α : Type} :
    ∀ (curr acc acc' : Config α), (curr.map Prod.fst).Nodup →
      mergeFragment acc curr = some acc' →
      ∀ k, (jsGet curr k = none → jsGet acc' k = jsGet acc k)
         ∧ (∀ c, jsGet curr k = some c →
              ∃ v, mergeVal (jsGet acc k) c = some v ∧ jsGet acc' k = some v) := by
  intro curr
  induction curr with
  | nil =>
    intro acc acc' _ h k
    simp only [mergeFragment, Option.some.injEq] at h
    subst h
    exact ⟨fun _ => rfl, fun c hc => by simp [jsGet] at hc⟩
  | cons kc rest ih =>
    obtain ⟨k₀, c₀⟩ := kc
    intro acc acc' hnd h k
    simp only [List.map, List.nodup_cons] at hnd
    cases hm : mergeVal (jsGet acc k₀) c₀ with
    | none => simp [mergeFragment, hm] at h
    | some v₀ =>
      simp only [mergeFragment, hm] at h
      have hrest₀ : jsGet rest k₀ = none := jsGet_none_of_not_mem rest k₀ hnd.1
      have IH := ih (jsSet acc k₀ v₀) acc' hnd.2 h
      by_cases hk : k₀ = k
      · subst hk
        constructor
        · intro hnone
          simp [jsGet] at hnone
        · intro c hc
          have hc₀ : c₀ = c := by simpa [jsGet] using hc
          subst hc₀
          refine ⟨v₀, hm, ?_⟩
          have := (IH k₀).1 hrest₀
          rw [this, jsGet_jsSet_self]
      · have hcurr : jsGet ((k₀, c₀) :: rest) k = jsGet rest k := by
          simp [jsGet, hk]
        have hacc : jsGet (jsSet acc k₀ v₀) k = jsGet acc k :=
          jsGet_jsSet_other acc k₀ k v₀ (Ne.symm hk)
        constructor
        · intro hnone
          rw [hcurr] at hnone
          rw [(IH k).1 hnone, hacc]
        · intro c hc
          rw [hcurr] at hc
          obtain ⟨v, hv1, hv2⟩ := (IH k).2 c hc
          rw [hacc] at hv1
          exact ⟨v, hv1, hv2⟩

/-- Claim C2: longest-prefix wins. For every table and every path with no
exact entry, the matcher scans wildcard keys from the full segment count
downward, so when `i₀` is the greatest segment count whose wildcard key
hits, the result is the value stored under that wildcard pattern. -/
theorem searchMapForRoute_longest {T : Type} (truthy : T → Bool)
    (routes : List (String × T)) (pathname : String) (i₀ : Nat)
    (hexact : jsGet routes pathname = none)
    (h1 : 1 ≤ i₀) (h2 : i₀ ≤ (splitSlash pathname).length)
    (h3 : wildcardHit truthy routes (splitSlash pathname) i₀ = true)
    (h4 : ∀ j, i₀ < j → j ≤ (splitSlash pathname).length →
        wildcardHit truthy routes (splitSlash pathname) j = false) :
    searchMapForRoute truthy pathname routes
      = jsGet routes (takeJoin (splitSlash pathname) i₀ ++ "/*") := by
  simp only [searchMapForRoute, hexact]
  exact searchLoop_find truthy routes (splitSlash pathname) i₀ _ h1 h2 h3 h4

/-- Witness for C2, the instance named by the claim: with both patterns
present, looking up a three-segment path under the two-segment wildcard
table returns the deeper value. -/
theorem searchMapForRoute_longest_witness :
    searchMapForRoute (fun _ => true) "/a/b/c" [("/a/*", 1), ("/a/b/*", 2)] = some 2 := by
  have h := searchMapForRoute_longest (fun _ => true) [("/a/*", 1), ("/a/b/*", 2)] "/a/b/c" 3
    (by decide) (by decide) (by decide) (by decide)
    (by
      intro j hj1 hj2
      have hlen : (splitSlash "/a/b/c").length = 4 := by decide
      rw [hlen] at hj2
      have hj : j = 4 := by omega
      subst hj
      decide)
  rw [h]
  decide

/-- Claim C3: exact-match precedence. A path present as a key of the
table (with a truthy stored value, as all table values of this library
are) is returned directly, before any wildcard probing. -/
theorem searchMapForRoute_exact {T : Type} (truthy : T → Bool) (pathname : String)
    (routes : List (String × T)) (v : T)
    (h : jsGet routes pathname = some v) (ht : truthy v = true) :
    searchMapForRoute truthy pathname routes = some v := by
  simp [searchMapForRoute, h, ht]

/-- Witness for C3, the instance named by the claim: with both an exact
entry and a covering wildcard entry, the exact value wins. -/
theorem searchMapForRoute_exact_witness :
    searchMapForRoute (fun _ => true) "/a/b" [("/a/b", 10), ("/a/*", 20)] = some 10 :=
  searchMapForRoute_exact (fun _ => true) "/a/b" [("/a/b", 10), ("/a/*", 20)] 10
    (by decide) rfl

/-- Claim C4: wildcard segment-boundary semantics and absence. A table
with only the wildcard entry matches the bare prefix and every deeper
path but not a longer first segment; and whenever neither an exact entry
nor any wildcard probe hits, the result is absent. -/
theorem searchMapForRoute_wildcard_bounds :
    (∀ (T : Type) (truthy : T → Bool) (routes : List (String × T)) (pathname : String),
       jsGet routes pathname = none →
       (∀ j, 1 ≤ j → j ≤ (splitSlash pathname).length →
          wildcardHit truthy routes (splitSlash pathname) j = false) →
       searchMapForRoute truthy pathname routes = none)
    ∧ searchMapForRoute (fun _ => true) "/a" [("/a/*", 1)] = some 1
    ∧ searchMapForRoute (fun _ => true) "/a/b" [("/a/*", 1)] = some 1
    ∧ searchMapForRoute (fun _ => true) "/a/b/c" [("/a/*", 1)] = some 1
    ∧ searchMapForRoute (fun _ => true) "/ab" [("/a/*", 1)] = none
    ∧ searchMapForRoute (fun _ => true) "/z" [("/a/*", 1)] = none := by
  refine ⟨?_, by decide, by decide, by decide, by decide, by decide⟩
  intro T truthy routes pathname hexact hw
  simp only [searchMapForRoute, hexact]
  exact searchLoop_none truthy routes (splitSlash pathname) _ hw

/-- Witness for C4: the no-match conjunct applied at a fresh concrete
table and path. -/
theorem searchMapForRoute_wildcard_bounds_witness :
    searchMapForRoute (fun _ => true) "/q" [("/x/*", 5)] = none := by
  apply searchMapForRoute_wildcard_bounds.1 Nat (fun _ => true) [("/x/*", 5)] "/q" (by decide)
  intro j h1 h2
  have hlen : (splitSlash "/q").length = 2 := by decide
  rw [hlen] at h2
  rcases (by omega : j = 1 ∨ j = 2) with h | h <;> subst h <;> decide

/-- Claim C1: the boundary-adapter contract. When the composed decision
resolves true, `guardMiddleware` returns the supplied response with the
decision's final state; when it resolves false, and likewise when it
throws, `guardMiddleware` does not propagate and instead returns the
result of the caller-supplied rejection handler applied to the
configuration accessor and the navigation context of the request. -/
theorem guardMiddleware_contract :
    ∀ (TG σ ρ : Type) (ipawg : (Unit → TG) → String → GM σ Bool)
      (mr : (Unit → TG) → NextUrl → GM σ ρ) (getApp : Unit → TG)
      (req : NextRequest) (res : ρ) (s s' : σ),
      (isPathAllowed ipawg getApp req.nextUrl.pathname s = (Except.ok true, s') →
         guardMiddleware ipawg mr getApp req res s = (Except.ok res, s'))
      ∧ (isPathAllowed ipawg getApp req.nextUrl.pathname s = (Except.ok false, s') →
         guardMiddleware ipawg mr getApp req res s = mr getApp req.nextUrl s')
      ∧ (∀ e, isPathAllowed ipawg getApp req.nextUrl.pathname s = (Except.error e, s') →
         guardMiddleware ipawg mr getApp req res s = mr getApp req.nextUrl s') := by
  intro TG σ ρ ipawg mr getApp req res s s'
  refine ⟨?_, ?_, ?_⟩
  · intro h
    simp only [isPathAllowed] at h
    simp [guardMiddleware, isPathAllowed, GM.bind, GM.tryCatch, GM.pure, h]
  · intro h
    simp only [isPathAllowed] at h
    simp [guardMiddleware, isPathAllowed, GM.bind, GM.tryCatch, GM.pure, h]
  · intro e h
    simp only [isPathAllowed] at h
    simp [guardMiddleware, isPathAllowed, GM.bind, GM.tryCatch, GM.pure, h]

/-- Witness for C1: a decision that always allows makes the middleware
return the supplied response unchanged. -/
theorem guardMiddleware_contract_witness :
    guardMiddleware (fun _ _ => GM.pure true) (fun _ _ => GM.pure 0)
      (fun _ => ()) ⟨⟨"/p", [], "h", "https:"⟩⟩ 7 () = (Except.ok 7, ()) :=
  (guardMiddleware_contract Unit Unit Nat (fun _ _ => GM.pure true) (fun _ _ => GM.pure 0)
    (fun _ => ()) ⟨⟨"/p", [], "h", "https:"⟩⟩ 7 () ()).1 rfl

/-- Claim C7: the composed decision is a short-circuit conjunction in the
supplied order. First conjunct: a denial by the role check makes the
composed result false with the state untouched, for every flag resolver,
flag table, special-check table and redirect table, so the later
predicates are never invoked. Second conjunct: when the role check
passes and the flag check resolves false, the composed result is false
with the flag check's final state, for every special-check table, so the
third predicate is never invoked. Third conjunct: when every check
resolves true the composed result is true. -/
theorem isPathAllowed_short_circuit :
    (∀ (σ : Type) (rt : List (String × List String)) (pathname : String)
       (roles : List String),
       searchMapForRoute (fun _ => true) pathname rt = some roles →
       roles.contains "admin" = true →
       ∀ (getFlags : List String → GM σ Bool) (ft : List (String × List String))
         (sc : Option (List (String × (Unit → GM σ Bool))))
         (dr : Option (List (String × (String → List (String × String) → GM σ String))))
         (s : σ),
         isPathAllowedWithGetApplicationGuardedRoutes getFlags
           (fun _ => ⟨ft, rt, sc, dr⟩) pathname s = (Except.ok false, s))
    ∧ (∀ (σ : Type) (rt ft : List (String × List String)) (pathname : String)
         (flags : List String) (getFlags : List String → GM σ Bool) (s s' : σ),
       (searchMapForRoute (fun _ => true) pathname rt = none ∨
        ∃ roles, searchMapForRoute (fun _ => true) pathname rt = some roles ∧
          roles.contains "admin" = false) →
       searchMapForRoute (fun _ => true) pathname ft = some flags →
       getFlags flags s = (Except.ok false, s') →
       ∀ (sc : Option (List (String × (Unit → GM σ Bool))))
         (dr : Option (List (String × (String → List (String × String) → GM σ String)))),
         isPathAllowedWithGetApplicationGuardedRoutes getFlags
           (fun _ => ⟨ft, rt, sc, dr⟩) pathname s = (Except.ok false, s'))
    ∧ (∀ (σ : Type) (getFlags : List String → GM σ Bool)
         (getApp : Unit → GuardedRoutes σ) (pathname : String) (s₀ s₁ s₂ s₃ : σ),
       checkRouteForRole getApp pathname s₀ = (Except.ok true, s₁) →
       checkRouteForFeatureFlag getFlags getApp pathname s₁ = (Except.ok true, s₂) →
       checkRouteForSpecialChecks getApp pathname s₂ = (Except.ok true, s₃) →
       isPathAllowedWithGetApplicationGuardedRoutes getFlags getApp pathname s₀
         = (Except.ok true, s₃)) := by
  refine ⟨?_, ?_, ?_⟩
  · intro σ rt pathname roles hlook hadm getFlags ft sc dr s
    have hm : "admin" ∈ roles := by simpa using hadm
    simp [isPathAllowedWithGetApplicationGuardedRoutes, checkRouteForRole, hlook, hm,
      GM.bind, GM.pure]
  · intro σ rt ft pathname flags getFlags s s' hrole hflag hgf sc dr
    have hr : checkRouteForRole
        (fun _ => (⟨ft, rt, sc, dr⟩ : GuardedRoutes σ)) pathname = GM.pure true := by
      rcases hrole with h | ⟨roles, h, ha⟩
      · simp [checkRouteForRole, h]
      · have hm : "admin" ∉ roles := by simpa using ha
        simp [checkRouteForRole, h, hm]
    simp [isPathAllowedWithGetApplicationGuardedRoutes, hr, checkRouteForFeatureFlag,
      hflag, GM.bind, GM.pure, hgf]
  · intro σ getFlags getApp pathname s₀ s₁ s₂ s₃ h1 h2 h3
    simp [isPathAllowedWithGetApplicationGuardedRoutes, GM.bind, GM.pure, h1, h2, h3]

/-- Witness for C7: the claim's test scenario, with the second predicate
(the flag check) resolving false and a third predicate that would throw
if it were invoked; the composed result is false and the state is the
flag check's final state. -/
theorem isPathAllowed_short_circuit_witness :
    isPathAllowedWithGetApplicationGuardedRoutes (fun _ => GM.pure false)
      (fun _ => ⟨[("/beta", ["flag1"])], [],
        some [("/beta", fun _ => GM.throw "never")], none⟩) "/beta" ()
      = (Except.ok false, ()) :=
  isPathAllowed_short_circuit.2.1 Unit [] [("/beta", ["flag1"])] "/beta" ["flag1"]
    (fun _ => GM.pure false) () () (Or.inl (by decide)) (by decide) rfl
    (some [("/beta", fun _ => GM.throw "never")]) none

/-- A configuration whose special check for `/s` throws. -/
def cfgThrowDemo : GuardedRoutes Unit :=
  ⟨[], [], some [("/s", fun _ => GM.throw "boom")], none⟩

/-- A configuration whose flag entry for `/f` makes the flag check call
the external resolver. -/
def cfgFlagDemo : GuardedRoutes Unit :=
  ⟨[("/f", ["x"])], [], some [], none⟩

/-- Counterexample to claim C8 as stated: with a special check that
throws, the composed `isPathAllowed` hands the error straight to its
direct caller; there is no catch inside the composed function, so a
render path calling it directly does observe the rejection. -/
theorem isPathAllowed_propagates :
    isPathAllowed (isPathAllowedWithGetApplicationGuardedRoutes (fun _ => GM.pure true))
      (fun _ => cfgThrowDemo) "/s" () = (Except.error "boom", ()) := rfl

/-- Amended claim C8: any predicate failure that occurs during
evaluation propagates out of `isPathAllowed` to its direct caller. The
conjuncts cover every failure site of the composed function: the role
check is infallible (first conjunct: it always resolves, being a pure
lookup), so a failure during evaluation is either a rejection of the
external flag resolver inside the flag check (second conjunct: it
propagates) or a throw of the special check, including the TypeError of
a missing category (third conjunct: it propagates). The fail-closed
catch lives one level up, in `guardMiddleware`, which never propagates a
decision failure and returns the rejection handler's response instead
(fourth conjunct). -/
theorem isPathAllowed_failure_semantics :
    (∀ (σ : Type) (getApp : Unit → GuardedRoutes σ) (pathname : String) (s : σ),
       ∃ b, checkRouteForRole getApp pathname s = (Except.ok b, s))
    ∧ (∀ (σ : Type) (getFlags : List String → GM σ Bool)
         (getApp : Unit → GuardedRoutes σ) (pathname : String) (s₀ s₁ s₂ : σ) (e : String),
       checkRouteForRole getApp pathname s₀ = (Except.ok true, s₁) →
       checkRouteForFeatureFlag getFlags getApp pathname s₁ = (Except.error e, s₂) →
       isPathAllowed (isPathAllowedWithGetApplicationGuardedRoutes getFlags) getApp
         pathname s₀ = (Except.error e, s₂))
    ∧ (∀ (σ : Type) (getFlags : List String → GM σ Bool)
         (getApp : Unit → GuardedRoutes σ) (pathname : String) (s₀ s₁ s₂ s₃ : σ) (e : String),
       checkRouteForRole getApp pathname s₀ = (Except.ok true, s₁) →
       checkRouteForFeatureFlag getFlags getApp pathname s₁ = (Except.ok true, s₂) →
       checkRouteForSpecialChecks getApp pathname s₂ = (Except.error e, s₃) →
       isPathAllowed (isPathAllowedWithGetApplicationGuardedRoutes getFlags) getApp
         pathname s₀ = (Except.error e, s₃))
    ∧ (∀ (TG σ ρ : Type) (ipawg : (Unit → TG) → String → GM σ Bool)
         (mr : (Unit → TG) → NextUrl → GM σ ρ) (getApp : Unit → TG)
         (req : NextRequest) (res : ρ) (s s' : σ) (e : String),
       isPathAllowed ipawg getApp req.nextUrl.pathname s = (Except.error e, s') →
       guardMiddleware ipawg mr getApp req res s = mr getApp req.nextUrl s') := by
  refine ⟨?_, ?_, ?_, ?_⟩
  · intro σ getApp pathname s
    cases h : searchMapForRoute (fun _ => true) pathname (getApp ()).roleBasedRoutes with
    | none => exact ⟨true, by simp only [checkRouteForRole, h]; rfl⟩
    | some roles =>
      exact ⟨!(roles.contains "admin"), by simp only [checkRouteForRole, h]; rfl⟩
  · intro σ getFlags getApp pathname s₀ s₁ s₂ e h1 h2
    simp [isPathAllowed, isPathAllowedWithGetApplicationGuardedRoutes, GM.bind, GM.pure,
      h1, h2]
  · intro σ getFlags getApp pathname s₀ s₁ s₂ s₃ e h1 h2 h3
    simp [isPathAllowed, isPathAllowedWithGetApplicationGuardedRoutes, GM.bind, GM.pure,
      h1, h2, h3]
  · intro TG σ ρ ipawg mr getApp req res s s' e h
    simp only [isPathAllowed] at h
    simp [guardMiddleware, isPathAllowed, GM.bind, GM.tryCatch, GM.pure, h]

/-- Witness for the amended C8: a rejecting flag resolver and a throwing
special check both propagate out of the composed decision, and the
middleware turns a thrown decision into the rejection response. -/
theorem isPathAllowed_failure_semantics_witness :
    isPathAllowed (isPathAllowedWithGetApplicationGuardedRoutes (fun _ => GM.throw "flagfail"))
      (fun _ => cfgFlagDemo) "/f" () = (Except.error "flagfail", ()) ∧
    isPathAllowed (isPathAllowedWithGetApplicationGuardedRoutes (fun _ => GM.pure true))
      (fun _ => cfgThrowDemo) "/s" () = (Except.error "boom", ()) ∧
    guardMiddleware (fun _ _ => GM.throw "boom") (fun _ _ => GM.pure 9)
      (fun _ => ()) ⟨⟨"/s", [], "h", "https:"⟩⟩ 1 () = (Except.ok 9, ()) := by
  refine ⟨?_, ?_, ?_⟩
  · exact isPathAllowed_failure_semantics.2.1 Unit (fun _ => GM.throw "flagfail")
      (fun _ => cfgFlagDemo) "/f" () () () "flagfail" rfl rfl
  · exact isPathAllowed_failure_semantics.2.2.1 Unit (fun _ => GM.pure true)
      (fun _ => cfgThrowDemo) "/s" () () () () "boom" rfl rfl rfl
  · rw [isPathAllowed_failure_semantics.2.2.2 Unit Unit Nat (fun _ _ => GM.throw "boom")
      (fun _ _ => GM.pure 9) (fun _ => ()) ⟨⟨"/s", [], "h", "https:"⟩⟩ 1 () () "boom" rfl]
    rfl

/-- The initial merge value of the end-to-end scenario: the role table
holds nothing yet and the optional categories are pre-populated empty. -/
def scenarioInit : Config (List String) :=
  [("roleBasedRoutes", CatVal.obj []), ("specialChecksRoutes", CatVal.obj []),
   ("featureFlaggedRoutes", CatVal.obj [])]

/-- The single fragment of the end-to-end scenario. -/
def scenarioFragment : Config (List String) :=
  [("roleBasedRoutes", CatVal.obj [("/admin/*", ["admin"])])]

/-- The merged configuration the scenario produces. -/
def scenarioMerged : Config (List String) :=
  [("roleBasedRoutes", CatVal.obj [("/admin/*", ["admin"])]),
   ("specialChecksRoutes", CatVal.obj []), ("featureFlaggedRoutes", CatVal.obj [])]

/-- The typed view of `scenarioMerged`, as the example checks read it. -/
def scenarioConfig (σ : Type) : GuardedRoutes σ :=
  ⟨[], [("/admin/*", ["admin"])], some [], none⟩

/-- Claim C9: the end-to-end scenario. The first accessor call merges the
single fragment into the initial value, and the updated memo state holds
that merged configuration; against it, the composed decision resolves
false for a path under the admin wildcard and true for an unguarded path,
for every flag resolver and every starting state. -/
theorem end_to_end_scenario :
    (getApplicationGuardedRoutes ⟨scenarioInit, [scenarioFragment], none⟩
       = some (scenarioMerged, ⟨scenarioMerged, [scenarioFragment], some scenarioMerged⟩))
    ∧ (∀ (σ : Type) (getFlags : List String → GM σ Bool) (s : σ),
        isPathAllowed (isPathAllowedWithGetApplicationGuardedRoutes getFlags)
          (fun _ => scenarioConfig σ) "/admin/panel" s = (Except.ok false, s))
    ∧ (∀ (σ : Type) (getFlags : List String → GM σ Bool) (s : σ),
        isPathAllowed (isPathAllowedWithGetApplicationGuardedRoutes getFlags)
          (fun _ => scenarioConfig σ) "/public" s = (Except.ok true, s)) := by
  refine ⟨by decide, ?_, ?_⟩ <;> intro σ getFlags s <;> rfl

/-- Claim C5: merge semantics. First conjunct: on a fresh state the
accessor computes the declaration-order fold of the fragments starting
from the initial value. Second conjunct: per category key of a fragment,
a sequence-typed accumulator value gets the fragment's sequence
concatenated onto it, and a mapping-typed accumulator value gets the
fragment's mapping shallow-merged into it, fragment keys overwriting
accumulator keys on collision (the inner per-key characterization of the
spread), with no deep merge. -/
theorem merge_semantics :
    (∀ (α : Type) (init : Config α) (frags : List (Config α)) (r : Config α),
       mergeAll init frags = some r →
       getApplicationGuardedRoutes ⟨init, frags, none⟩ = some (r, ⟨r, frags, some r⟩))
    ∧ (∀ (α : Type) (acc curr acc' : Config α),
       (curr.map Prod.fst).Nodup → mergeFragment acc curr = some acc' →
       ∀ k c, jsGet curr k = some c →
         (∀ xs ys, jsGet acc k = some (CatVal.arr xs) → c = CatVal.arr ys →
            jsGet acc' k = some (CatVal.arr (xs ++ ys)))
         ∧ (∀ m1 m2, jsGet acc k = some (CatVal.obj m1) → c = CatVal.obj m2 →
              jsGet acc' k = some (CatVal.obj (objSpread m1 m2))
              ∧ ∀ k', jsGet (objSpread m1 m2) k'
                  = match jsGet m2 k' with
                    | some w => some w
                    | none => jsGet m1 k')) := by
  constructor
  · intro α init frags r h
    simp [getApplicationGuardedRoutes, h]
  · intro α acc curr acc' hnd hmf k c hkc
    obtain ⟨v, hv1, hv2⟩ := (mergeFragment_get curr acc acc' hnd hmf k).2 c hkc
    constructor
    · intro xs ys ha hc
      subst hc
      rw [ha] at hv1
      simp only [mergeVal, Option.some.injEq] at hv1
      rw [hv2, ← hv1]
    · intro m1 m2 ha hc
      subst hc
      rw [ha] at hv1
      simp only [mergeVal, Option.some.injEq] at hv1
      refine ⟨by rw [hv2, ← hv1], fun k' => objSpread_get m1 m2 k'⟩

/-- The merged-roles object of the claim's mapping-typed example. -/
def mergedRolesDemo : Config (List String) := [("roles", CatVal.obj [("/x", ["editor"])])]

/-- The merged-sequence object of the claim's sequence-typed example. -/
def mergedSeqDemo : Config String := [("seq", CatVal.arr ["admin", "editor"])]

/-- Witness for C5, the claim's two examples: merging the `editor`
fragment over the `admin` one overwrites under a mapping-typed category
and concatenates under a sequence-typed category. -/
theorem merge_semantics_witness :
    jsGet mergedRolesDemo "roles" = some (CatVal.obj [("/x", ["editor"])])
    ∧ jsGet mergedSeqDemo "seq" = some (CatVal.arr ["admin", "editor"]) := by
  constructor
  · have h := ((merge_semantics.2 (List String)
      [("roles", CatVal.obj [("/x", ["admin"])])]
      [("roles", CatVal.obj [("/x", ["editor"])])]
      mergedRolesDemo (by decide) (by decide) "roles" (CatVal.obj [("/x", ["editor"])])
      (by decide)).2 [("/x", ["admin"])] [("/x", ["editor"])] (by decide) rfl).1
    rw [h]
    decide
  · have h := (merge_semantics.2 String
      [("seq", CatVal.arr ["admin"])] [("seq", CatVal.arr ["editor"])]
      mergedSeqDemo (by decide) (by decide) "seq" (CatVal.arr ["editor"])
      (by decide)).1 ["admin"] ["editor"] (by decide) rfl
    rw [h]
    rfl

/-- Claim C6: memoization. First conjunct: on a state whose memo cell is
filled, the accessor returns the cached value with the state unchanged,
and does so for every fragment list, so nothing is recomputed and later
changes to the fragments cannot affect the cached result. Second
conjunct: after any first call, a second call returns the identical
result and state, again for every replacement of the fragments. -/
theorem merge_memoization :
    (∀ (α : Type) (s : GuardGen α) (v : Config α),
       s.mergedApplicationGuardedRoutes = some v →
       getApplicationGuardedRoutes s = some (v, s)
       ∧ ∀ frags', getApplicationGuardedRoutes ⟨s.initValue, frags', some v⟩
           = some (v, ⟨s.initValue, frags', some v⟩))
    ∧ (∀ (α : Type) (s₀ : GuardGen α) (r : Config α) (s₁ : GuardGen α),
       getApplicationGuardedRoutes s₀ = some (r, s₁) →
       getApplicationGuardedRoutes s₁ = some (r, s₁)
       ∧ ∀ frags',
           getApplicationGuardedRoutes
             ⟨s₁.initValue, frags', s₁.mergedApplicationGuardedRoutes⟩
           = some (r, ⟨s₁.initValue, frags', s₁.mergedApplicationGuardedRoutes⟩)) := by
  have cached : ∀ (α : Type) (s : GuardGen α) (v : Config α),
      s.mergedApplicationGuardedRoutes = some v →
      getApplicationGuardedRoutes s = some (v, s) := by
    intro α s v h
    simp [getApplicationGuardedRoutes, h]
  have post : ∀ (α : Type) (s₀ : GuardGen α) (r : Config α) (s₁ : GuardGen α),
      getApplicationGuardedRoutes s₀ = some (r, s₁) →
      s₁.mergedApplicationGuardedRoutes = some r := by
    intro α s₀ r s₁ h
    cases hm : s₀.mergedApplicationGuardedRoutes with
    | some v =>
      rw [cached α s₀ v hm] at h
      simp only [Option.some.injEq, Prod.mk.injEq] at h
      obtain ⟨h1, h2⟩ := h
      rw [← h2, hm, h1]
    | none =>
      cases hr : mergeAll s₀.initValue s₀.applicationGuardedRoutes with
      | none => simp [getApplicationGuardedRoutes, hm, hr] at h
      | some m =>
        simp only [getApplicationGuardedRoutes, hm, hr, Option.some.injEq,
          Prod.mk.injEq] at h
        obtain ⟨h1, h2⟩ := h
        rw [← h2]
        simp [h1]
  constructor
  · intro α s v h
    exact ⟨cached α s v h, fun frags' => cached α ⟨s.initValue, frags', some v⟩ v rfl⟩
  · intro α s₀ r s₁ h
    have hp := post α s₀ r s₁ h
    refine ⟨cached α s₁ r hp, fun frags' => ?_⟩
    rw [hp]
    exact cached α ⟨s₁.initValue, frags', some r⟩ r rfl

/-- The fresh generator state of the memoization witness. -/
def memoDemoState : GuardGen Nat :=
  ⟨[("m", CatVal.obj [])], [[("m", CatVal.obj [("/y", 2)])]], none⟩

/-- The merged configuration of the memoization witness. -/
def memoDemoMerged : Config Nat := [("m", CatVal.obj [("/y", 2)])]

/-- The generator state after the first accessor call of the memoization
witness. -/
def memoDemoState2 : GuardGen Nat :=
  ⟨memoDemoMerged, [[("m", CatVal.obj [("/y", 2)])]], some memoDemoMerged⟩

/-- Witness for C6: after a concrete first call, the second call returns
the identical cached pair, and emptying the fragment list leaves the
cached result unchanged. -/
theorem merge_memoization_witness :
    getApplicationGuardedRoutes memoDemoState2 = some (memoDemoMerged, memoDemoState2)
    ∧ getApplicationGuardedRoutes
        ⟨memoDemoState2.initValue, [], memoDemoState2.mergedApplicationGuardedRoutes⟩
      = some (memoDemoMerged,
          ⟨memoDemoState2.initValue, [], memoDemoState2.mergedApplicationGuardedRoutes⟩) := by
  have h := merge_memoization.2 Nat memoDemoState memoDemoMerged memoDemoState2 (by decide)
  exact ⟨h.1, h.2 []⟩

/-- The fresh generator state of the mutation counterexample. -/
def mutateDemoState : GuardGen Nat :=
  ⟨[("cat", CatVal.obj [])], [[("cat", CatVal.obj [("/k", 5)])]], none⟩

/-- Counterexample to claim C10 as stated: the reduce accumulator is the
`initValue` object itself and property assignments during the merge land
on it, so after the first accessor call the `initValue` object no longer
holds its original value. -/
theorem initValue_mutated :
    (getApplicationGuardedRoutes mutateDemoState).map (fun p => p.2.initValue)
      = some [("cat", CatVal.obj [("/k", 5)])]
    ∧ mutateDemoState.initValue = [("cat", CatVal.obj [])]
    ∧ (getApplicationGuardedRoutes mutateDemoState).map (fun p => p.2.initValue)
      ≠ some mutateDemoState.initValue := by
  exact ⟨by decide, by decide, by decide⟩

/-- Amended claim C10: the fragment objects are never mutated by the
accessor, and calls after the first mutate nothing; but the first
accessor call mutates the initial merge value in place, leaving it equal
to the merged configuration. -/
theorem accessor_mutation_scope :
    ∀ (α : Type) (s : GuardGen α) (r : Config α) (s' : GuardGen α),
      getApplicationGuardedRoutes s = some (r, s') →
      s'.applicationGuardedRoutes = s.applicationGuardedRoutes
      ∧ s'.mergedApplicationGuardedRoutes = some r
      ∧ (s.mergedApplicationGuardedRoutes = none → s'.initValue = r)
      ∧ (∀ v, s.mergedApplicationGuardedRoutes = some v → s' = s) := by
  intro α s r s' h
  cases hm : s.mergedApplicationGuardedRoutes with
  | some v =>
    simp only [getApplicationGuardedRoutes, hm, Option.some.injEq, Prod.mk.injEq] at h
    obtain ⟨h1, h2⟩ := h
    subst h1
    subst h2
    exact ⟨rfl, hm, fun hc => Option.noConfusion hc, fun w hw => rfl⟩
  | none =>
    cases hr : mergeAll s.initValue s.applicationGuardedRoutes with
    | none => simp [getApplicationGuardedRoutes, hm, hr] at h
    | some m =>
      simp only [getApplicationGuardedRoutes, hm, hr, Option.some.injEq,
        Prod.mk.injEq] at h
      obtain ⟨h1, h2⟩ := h
      subst h1
      subst h2
      exact ⟨rfl, rfl, fun _ => rfl, fun w hw => Option.noConfusion hw⟩

/-- Witness for the amended C10, at a concrete first call: the fragments
are preserved and `initValue` ends up holding the merged configuration. -/
theorem accessor_mutation_scope_witness :
    ((⟨[("w", CatVal.obj [("/q", 9)])], [[("w", CatVal.obj [("/q", 9)])]],
        some [("w", CatVal.obj [("/q", 9)])]⟩ : GuardGen Nat)).initValue
      = [("w", CatVal.obj [("/q", 9)])] :=
  (accessor_mutation_scope Nat
    ⟨[("w", CatVal.obj [])], [[("w", CatVal.obj [("/q", 9)])]], none⟩
    [("w", CatVal.obj [("/q", 9)])]
    ⟨[("w", CatVal.obj [("/q", 9)])], [[("w", CatVal.obj [("/q", 9)])]],
      some [("w", CatVal.obj [("/q", 9)])]⟩
    (by decide)).2.2.1 rfl
